import Mathlib

/-!
# gonload: the concurrent download coordinator of `worker/worker.go`

A shallow embedding of `main`, `worker.start`, `readToFile` and
`displayProgress`.  Everything the program does to the outside world is
recorded as a list of `Event`s; everything the outside world answers
(`http.Get`, `os.Create`, `io.Copy`, `Close`, `os.Stat`, `url.Parse`,
`filepath.Join`, and what each non-blocking receive on the channel finds) is
an explicit argument.  The Go standard-library functions `path.Base` and
`strings.Fields`, whose results the properties depend on, are embedded
alongside.
-/

namespace Gonload

/-! ## Data model -/

/-- The part of `*url.URL` that the program reads: its rendering through
`fmt.Sprintf("%s", u)` and its `Path` field. -/
structure URL where
  str : String
  Path : String
deriving DecidableEq, Repr

/-- Identity of a `chan stat`. -/
abbrev Chan := Nat

/-- The record `type stat struct`: `err error` (`none` is Go's `nil`),
`bytesRead int64`, `fileName string`.  Omitted fields take Go's zero values. -/
structure stat where
  err : Option String := none
  bytesRead : Int := 0
  fileName : String := ""
deriving DecidableEq, Repr

/-- The record `type worker struct`. -/
structure worker where
  URL : Gonload.URL
  outDir : String
  statCh : Chan
deriving DecidableEq, Repr

/-- Observable actions of the program, in program order. -/
inductive Event where
  /-- text written to standard output -/
  | print (text : String)
  /-- call of `http.Get` on a URL string -/
  | get (url : String)
  /-- call of `os.Create` on a path -/
  | create (path : String)
  /-- call of `io.Copy` into the file at a path, with the number of bytes it copied -/
  | copy (path : String) (n : Nat)
  /-- call of `Close` on the file created at a path -/
  | closeFile (path : String)
  /-- call of `res.Body.Close` -/
  | closeBody
  /-- channel send `ch <- s` -/
  | send (ch : Chan) (s : stat)
  /-- channel receive `s := <-ch` -/
  | recv (ch : Chan) (s : stat)
  /-- goroutine start `go work.start()` -/
  | launch (w : worker)
  /-- call of `time.Sleep` with a duration in milliseconds -/
  | sleep (ms : Nat)
  /-- call of `os.Exit`, or return from `main` (status 0) -/
  | exit (code : Nat)
deriving DecidableEq, Repr

/-- Answers of the file system to the calls made by one run of `readToFile`:
the error of `os.Create` (if any), the number of bytes `io.Copy` reports to
have copied (a count, hence a natural number) and its error, the error of
`f.Close`. -/
structure FileSys where
  createErr : Option String
  copied : Nat
  copyErr : Option String
  closeErr : Option String
deriving DecidableEq, Repr

/-- Answers of the outside world to one run of `worker.start`: the error of
`http.Get` (`none`: a response with a body), the error of `res.Body.Close`,
the file-system answers, and the function `filepath.Join`. -/
structure TaskEnv where
  getErr : Option String
  bodyCloseErr : Option String
  fs : FileSys
  join : String → String → String

/-- Answers of the outside world to `main`: the error of `os.Stat` on a
directory, the function `url.Parse`, and what the successive non-blocking
receives of the drain loop find (`some s`: a record is ready, `none`: the
`default` branch is taken). -/
structure MainEnv where
  statErr : String → Option String
  parse : String → Except String URL
  polls : List (Option stat)

/-! ## Standard-library functions -/

/-- Go's `path.Base`: `"."` for the empty path; otherwise trailing slashes are
stripped, everything up to the last remaining slash is dropped, and `"/"` is
returned when nothing is left.  (The slash is a single byte that never occurs
inside a multi-byte UTF-8 sequence, so working on characters agrees with Go's
byte indexing.) -/
def pathBase (path : String) : String :=
  if path.data = [] then "."
  else
    let stripped := path.data.rdropWhile (fun c => c == '/')
    let last := stripped.rtakeWhile (fun c => c != '/')
    if last = [] then "/" else String.mk last

/-- Go's `unicode.IsSpace`, by code point. -/
def isSpace (c : Char) : Bool :=
  let n := c.toNat
  (9 ≤ n && n ≤ 13) || n == 32 || n == 0x85 || n == 0xA0 || n == 0x1680 ||
  (0x2000 ≤ n && n ≤ 0x200a) || n == 0x2028 || n == 0x2029 || n == 0x202f ||
  n == 0x205f || n == 0x3000

/-- The scan of `strings.Fields`: `cur` is the field being read. -/
def fieldsFrom : List Char → List Char → List String
  | [], cur => if cur = [] then [] else [String.mk cur]
  | c :: cs, cur =>
    if isSpace c then
      if cur = [] then fieldsFrom cs [] else String.mk cur :: fieldsFrom cs []
    else fieldsFrom cs (cur ++ [c])

/-- Go's `strings.Fields`: the maximal runs of non-space characters. -/
def fields (s : String) : List String := fieldsFrom s.data []

/-! ## `readToFile` and `worker.start` -/

/-- The function `readToFile(reader, filepath)`: returns `(n, err)` and the
actions it performed.  The reader is represented by what `io.Copy` reports in
`fs`. -/
def readToFile (fs : FileSys) (filepath : String) : (Int × Option String) × List Event :=
  match fs.createErr with
  | some err => ((0, some ("error creating file: " ++ err ++ "\n")), [.create filepath])
  | none =>
    match fs.copyErr with
    | some err =>
      ((0, some ("error while copying data: " ++ err)),
        [.create filepath, .copy filepath fs.copied])
    | none =>
      match fs.closeErr with
      | some err =>
        (((fs.copied : Int), some ("error closing the file: " ++ err ++ "\n")),
          [.create filepath, .copy filepath fs.copied, .closeFile filepath])
      | none =>
        (((fs.copied : Int), none),
          [.create filepath, .copy filepath fs.copied, .closeFile filepath])

/-- The deferred function of `worker.start`: close the body, report a failure. -/
def closeBody (env : TaskEnv) : List Event :=
  match env.bodyCloseErr with
  | some err => [.closeBody, .print ("Error on close: " ++ err)]
  | none => [.closeBody]

/-- The method `(w *worker) start()`, as the list of actions it performs. -/
def start (w : worker) (env : TaskEnv) : List Event :=
  match env.getErr with
  | some err => [.get w.URL.str, .send w.statCh { err := some err }]
  | none =>
    let name := pathBase w.URL.Path
    let filePath := env.join w.outDir name
    let r := readToFile env.fs filePath
    [.get w.URL.str, .print ("Downloading " ++ filePath ++ "\n")] ++ r.2 ++
      (match r.1.2 with
       | some err => [.send w.statCh { err := some err }]
       | none => [.send w.statCh { bytesRead := r.1.1, fileName := name }]) ++
      closeBody env

/-! ## `main` -/

/-- The function `displayProgress`. -/
def displayProgress : List Event :=
  (["-", "\\", "|", "/"].map fun s => [Event.print (s ++ "\r"), Event.sleep 100]).flatten

/-- The channel `workersStats` made by `main`. -/
def workersStats : Chan := 0

/-- The loop `for _, l := range links` of `main`. -/
def launchLoop (parse : String → Except String URL) (outDir : String) : List String → List Event
  | [] => []
  | l :: ls =>
    match parse l with
    | .error err => .print (err ++ "\n") :: launchLoop parse outDir ls
    | .ok parsedURL => .launch ⟨parsedURL, outDir, workersStats⟩ :: launchLoop parse outDir ls

/-- What `main` prints for a received record. -/
def report (s : stat) : String :=
  match s.err with
  | some err => err ++ "\n"
  | none => "\rFinished " ++ s.fileName ++ " - " ++ toString s.bytesRead ++ " bytes\n"

/-- State of the Coordinator in its drain loop: the counter `left`, the
results that the coming non-blocking receives will find, the actions
performed so far, and whether `main` has returned. -/
structure Coord where
  left : Int
  polls : List (Option stat)
  trace : List Event
  done : Bool
deriving DecidableEq, Repr

/-- One iteration of the loop `for { ... }` of `main`.  After `main` has
returned nothing happens; when the schedule `polls` is used up the state is
left as it is (the loop is still running). -/
def drainStep (c : Coord) : Coord :=
  if c.done then c
  else if c.left = 0 then
    { c with trace := c.trace ++ [.print "All done\n", .exit 0], done := true }
  else
    match c.polls with
    | [] => c
    | some s :: ps =>
      { left := c.left - 1, polls := ps,
        trace := c.trace ++ [.recv workersStats s, .print (report s)], done := false }
    | none :: ps =>
      { c with polls := ps, trace := c.trace ++ displayProgress }

/-- The drain loop run for `k` iterations. -/
def drainRun : Nat → Coord → Coord
  | 0, c => c
  | k + 1, c => drainRun k (drainStep c)

/-- The drain loop run until the schedule is used up: every iteration that
does not return consumes one poll result, so `polls.length + 1` iterations
suffice. -/
def drainAll (c : Coord) : Coord := drainRun (c.polls.length + 1) c

/-- The function `main` up to the head of the drain loop: either the process
has exited (`Except.error`, with the actions performed), or the Coordinator
enters the loop in the given state. -/
def mainSetup (linksArg outDir : String) (env : MainEnv) : Except (List Event) Coord :=
  if linksArg = "" then .error [.print "Nothing to download\n", .exit 0]
  else
    match env.statErr outDir with
    | some err => .error [.print (err ++ "\n"), .exit 1]
    | none =>
      let links := fields linksArg
      .ok { left := (links.length : Int), polls := env.polls,
            trace := launchLoop env.parse outDir links, done := false }

/-- The function `main`: all actions performed on the given schedule. -/
def main (linksArg outDir : String) (env : MainEnv) : List Event :=
  match mainSetup linksArg outDir env with
  | .error evs => evs
  | .ok c => (drainAll c).trace

/-! ## Observations on traces -/

/-- The records sent on any channel. -/
def allSends (evs : List Event) : List stat :=
  evs.filterMap fun e => match e with
    | .send _ s => some s
    | _ => none

/-- The records sent on channel `ch`. -/
def sends (ch : Chan) (evs : List Event) : List stat :=
  evs.filterMap fun e => match e with
    | .send c s => if c = ch then some s else none
    | _ => none

/-- The records received from a channel. -/
def recvs (evs : List Event) : List stat :=
  evs.filterMap fun e => match e with
    | .recv _ s => some s
    | _ => none

/-- The workers started as goroutines. -/
def launched (evs : List Event) : List worker :=
  evs.filterMap fun e => match e with
    | .launch w => some w
    | _ => none

/-- The paths on which `os.Create` was called. -/
def created (evs : List Event) : List String :=
  evs.filterMap fun e => match e with
    | .create p => some p
    | _ => none

/-- The paths whose file was closed. -/
def closedFiles (evs : List Event) : List String :=
  evs.filterMap fun e => match e with
    | .closeFile p => some p
    | _ => none

/-- The texts written to standard output. -/
def printed (evs : List Event) : List String :=
  evs.filterMap fun e => match e with
    | .print t => some t
    | _ => none

/-- The exit status, if the process has exited. -/
def exitStatus (evs : List Event) : Option Nat :=
  evs.findSome? fun e => match e with
    | .exit code => some code
    | _ => none

/-- The records found ready by a schedule of polls. -/
def records (polls : List (Option stat)) : List stat := polls.filterMap id

/-! ## Sample answers of the outside world, for the concrete cases -/

/-- A run of `url.Parse` on three tokens: `":foo"` is rejected by `net/url`
("missing protocol scheme"); the two others parse, with the paths shown.
No other token is used in the concrete cases. -/
def parseSample (t : String) : Except String URL :=
  if t = ":foo" then .error "parse \":foo\": missing protocol scheme"
  else if t = "http://h/a/b/file.txt" then .ok ⟨"http://h/a/b/file.txt", "/a/b/file.txt"⟩
  else if t = "http://h/x" then .ok ⟨"http://h/x", "/x"⟩
  else .error "token outside the sample"

/-- A directory listing in which only `"."` exists. -/
def statSample (dir : String) : Option String :=
  if dir = "." then none else some ("stat " ++ dir ++ ": no such file or directory")

/-- A special case of `filepath.Join`: a clean directory and a plain file name. -/
def joinSample (dir name : String) : String := dir ++ "/" ++ name

/-- The record of a completed download of `file.txt`, 5 bytes. -/
def helloStat : stat := { bytesRead := 5, fileName := "file.txt" }

/-- The record of a completed 5-byte download from a URL with the empty path. -/
def dotStat : stat := { bytesRead := 5, fileName := "." }

/-- The record of a completed 5-byte download from a URL with the path `///`. -/
def slashStat : stat := { bytesRead := 5, fileName := "/" }

/-! ## Lemmas on `path.Base` -/

theorem takeWhile_append_stop {α : Type} (p : α → Bool) (a b : List α) (x : α)
    (ha : ∀ y ∈ a, p y = true) (hx : p x = false) :
    (a ++ x :: b).takeWhile p = a := by
  induction a with
  | nil => simp [List.takeWhile, hx]
  | cons y ys ih =>
    have hy : p y = true := ha y (List.mem_cons_self _ _)
    have hys : ∀ z ∈ ys, p z = true := fun z hz => ha z (List.mem_cons_of_mem _ hz)
    simp [List.takeWhile, hy, ih hys]

theorem takeWhile_all {α : Type} (p : α → Bool) (a : List α)
    (ha : ∀ y ∈ a, p y = true) : a.takeWhile p = a := by
  induction a with
  | nil => rfl
  | cons y ys ih =>
    have hy : p y = true := ha y (List.mem_cons_self _ _)
    have hys : ∀ z ∈ ys, p z = true := fun z hz => ha z (List.mem_cons_of_mem _ hz)
    simp [List.takeWhile, hy, ih hys]

/-- The result of `path.Base` is never the empty string. -/
theorem pathBase_ne_empty (path : String) : pathBase path ≠ "" := by
  unfold pathBase
  by_cases h1 : path.data = []
  · simp [h1]
  · by_cases h2 : (path.data.rdropWhile (fun c => c == '/')).rtakeWhile (fun c => c != '/') = []
    · simp [h1, h2]
    · simp only [h1, h2, if_false]
      intro h
      exact h2 (by simpa using congrArg String.data h)

/-- On a list of characters that ends in a non-empty slash-free segment `s`,
stripping trailing slashes changes nothing and the part after the last slash
is `s`. -/
theorem base_chars (d s : List Char) (hs : s ≠ []) (hno : ∀ c ∈ s, c ≠ '/')
    (hd : d = [] ∨ ∃ q, d = q ++ ['/']) :
    ((d ++ s).rdropWhile (fun c => c == '/')).rtakeWhile (fun c => c != '/') = s := by
  obtain ⟨t, x, rfl⟩ : ∃ t x, s = t ++ [x] := by
    rcases List.eq_nil_or_concat s with h | ⟨t, x, h⟩
    · exact absurd h hs
    · exact ⟨t, x, by simpa using h⟩
  have hx : x ≠ '/' := hno x (by simp)
  have h1 : (d ++ (t ++ [x])).rdropWhile (fun c => c == '/') = d ++ (t ++ [x]) := by
    rw [← List.append_assoc]
    exact List.rdropWhile_concat_neg _ _ _ (by simpa using hx)
  rw [h1]
  have hall : ∀ y ∈ (t ++ [x]).reverse, (fun c : Char => c != '/') y = true := by
    intro y hy
    have : y ∈ t ++ [x] := List.mem_reverse.mp hy
    simpa using hno y this
  rcases hd with rfl | ⟨q, rfl⟩
  · unfold List.rtakeWhile
    rw [List.nil_append, takeWhile_all _ _ hall, List.reverse_reverse]
  · unfold List.rtakeWhile
    have hrev : (q ++ ['/'] ++ (t ++ [x])).reverse = (t ++ [x]).reverse ++ '/' :: q.reverse := by
      simp
    rw [hrev, takeWhile_append_stop _ _ _ _ hall (by simp), List.reverse_reverse]

/-- The function `path.Base` returns the final segment of a path that ends in a
non-empty segment without a slash. -/
theorem pathBase_final_segment (path s : String) (hs : s ≠ "")
    (hno : ∀ c ∈ s.data, c ≠ '/') (hp : path = s ∨ ∃ d : String, path = d ++ "/" ++ s) :
    pathBase path = s := by
  have hsd : s.data ≠ [] := by
    intro h
    exact hs (by
      cases s
      simp_all)
  have key : ∃ d : List Char, path.data = d ++ s.data ∧ (d = [] ∨ ∃ q, d = q ++ ['/']) := by
    rcases hp with rfl | ⟨d, rfl⟩
    · exact ⟨[], by simp, Or.inl rfl⟩
    · exact ⟨d.data ++ ['/'], by simp [String.data_append], Or.inr ⟨d.data, rfl⟩⟩
  obtain ⟨d, hd, hq⟩ := key
  have hne : path.data ≠ [] := by
    rw [hd]
    simp [hsd]
  unfold pathBase
  simp only [hne, if_false]
  rw [hd, base_chars d s.data hsd hno hq]
  simp [hsd]

/-! ## The Download Task and the Sink Writer -/

/-- C2: whatever `http.Get`, `os.Create`, `io.Copy` and the two `Close` calls
answer, one run of `worker.start` performs exactly one channel send, and that
send is on the worker's own channel `statCh`. -/
theorem start_sends_exactly_once (w : worker) (env : TaskEnv) :
    (allSends (start w env)).length = 1 ∧
      sends w.statCh (start w env) = allSends (start w env) := by
  rcases env with ⟨g, bc, ⟨cr, n, cp, cl⟩, j⟩
  cases g <;> cases cr <;> cases cp <;> cases cl <;> cases bc <;>
    simp [start, readToFile, closeBody, allSends, sends]

/-- C4: every record sent by `worker.start` either carries an error together
with a zero byte count and an empty file name, or carries no error together
with a non-negative byte count and a non-empty file name; it never carries an
error and a file name, and never neither.  The URL path is arbitrary (empty,
or slashes only, included). -/
theorem outcome_record_exclusive (w : worker) (env : TaskEnv) (s : stat)
    (hs : s ∈ allSends (start w env)) :
    ((s.err ≠ none ∧ s.bytesRead = 0 ∧ s.fileName = "") ∨
      (s.err = none ∧ 0 ≤ s.bytesRead ∧ s.fileName ≠ "")) ∧
    ¬ (s.err ≠ none ∧ (s.bytesRead ≠ 0 ∨ s.fileName ≠ "")) ∧
    ¬ (s.err = none ∧ s.fileName = "") := by
  have hb := pathBase_ne_empty w.URL.Path
  rcases env with ⟨g, bc, ⟨cr, n, cp, cl⟩, j⟩
  cases g <;> cases cr <;> cases cp <;> cases cl <;> cases bc <;>
    simp [start, readToFile, closeBody, allSends] at hs <;>
    subst hs <;> simp [hb]

/-- C4, concrete cases: for the empty path and for a path of slashes only a
completed download sends a record without error whose file name is `"."`
and `"/"`. -/
theorem outcome_record_exclusive_witness :
    allSends (start ⟨⟨"http://h", ""⟩, ".", 0⟩
        ⟨none, none, ⟨none, 5, none, none⟩, joinSample⟩) = [dotStat] ∧
      allSends (start ⟨⟨"http://h///", "///"⟩, ".", 0⟩
        ⟨none, none, ⟨none, 5, none, none⟩, joinSample⟩) = [slashStat] ∧
      ((dotStat.err ≠ none ∧ dotStat.bytesRead = 0 ∧ dotStat.fileName = "") ∨
        (dotStat.err = none ∧ 0 ≤ dotStat.bytesRead ∧ dotStat.fileName ≠ "")) ∧
      ((slashStat.err ≠ none ∧ slashStat.bytesRead = 0 ∧ slashStat.fileName = "") ∨
        (slashStat.err = none ∧ 0 ≤ slashStat.bytesRead ∧ slashStat.fileName ≠ "")) :=
  ⟨by decide, by decide,
    (outcome_record_exclusive ⟨⟨"http://h", ""⟩, ".", 0⟩
      ⟨none, none, ⟨none, 5, none, none⟩, joinSample⟩ dotStat (by decide)).1,
    (outcome_record_exclusive ⟨⟨"http://h///", "///"⟩, ".", 0⟩
      ⟨none, none, ⟨none, 5, none, none⟩, joinSample⟩ slashStat (by decide)).1⟩

/-- C7 (the code departs from it): when `os.Create` succeeds and `io.Copy`
fails, `readToFile` returns the copy error after having created the file and
without closing it. -/
theorem readToFile_copy_failure_skips_close (n : Nat) (e : String) (ce : Option String)
    (p : String) :
    (readToFile ⟨none, n, some e, ce⟩ p).1 = (0, some ("error while copying data: " ++ e)) ∧
      created (readToFile ⟨none, n, some e, ce⟩ p).2 = [p] ∧
      closedFiles (readToFile ⟨none, n, some e, ce⟩ p).2 = [] := by
  simp [readToFile, created, closedFiles]

/-- After a successful copy `readToFile` does close the file it created. -/
theorem readToFile_copy_success_closes (n : Nat) (ce : Option String) (p : String) :
    created (readToFile ⟨none, n, none, ce⟩ p).2 = [p] ∧
      closedFiles (readToFile ⟨none, n, none, ce⟩ p).2 = [p] := by
  cases ce <;> simp [readToFile, created, closedFiles]

/-- C8: when `http.Get` returns an error, `worker.start` does nothing after
that call but send one record carrying that error (zero byte count, empty
file name): it calls neither `os.Create` nor any other file operation and
prints nothing, the "Downloading" notice included. -/
theorem fetch_error_sends_error_only (w : worker) (env : TaskEnv) (e : String)
    (h : env.getErr = some e) :
    start w env =
        [.get w.URL.str, .send w.statCh { err := some e, bytesRead := 0, fileName := "" }] ∧
      created (start w env) = [] ∧ closedFiles (start w env) = [] ∧
      printed (start w env) = [] := by
  simp [start, h, created, closedFiles, printed]

/-- C8, concrete case: an unreachable host. -/
theorem fetch_error_sends_error_only_witness :
    start ⟨⟨"http://h/x", "/x"⟩, ".", 0⟩
        ⟨some "dial tcp: no such host", none, ⟨none, 7, none, none⟩, joinSample⟩ =
      [.get "http://h/x",
        .send 0 { err := some "dial tcp: no such host", bytesRead := 0, fileName := "" }] :=
  (fetch_error_sends_error_only ⟨⟨"http://h/x", "/x"⟩, ".", 0⟩
    ⟨some "dial tcp: no such host", none, ⟨none, 7, none, none⟩, joinSample⟩
    "dial tcp: no such host" rfl).1

/-- The text printed for a record without error is the prefix `"\rFinished "`,
then `name - n bytes`, then a newline. -/
theorem report_success (name : String) (n : Nat) :
    report { bytesRead := (n : Int), fileName := name } =
      "\rFinished " ++ (name ++ " - " ++ toString n ++ " bytes") ++ "\n" := by
  have h1 : (" bytes\n" : String) = " bytes" ++ "\n" := by decide
  have h2 : toString (n : Int) = toString n := rfl
  simp only [report, h1, h2, String.append_assoc]

/-- C9: for a URL whose path is, or ends after a slash in, a non-empty
segment `s` without a slash, a download in which `http.Get`, `os.Create`,
`io.Copy` (of `n` bytes) and `Close` all succeed creates the file
`filepath.Join(outDir, s)`, copies the `n` bytes into it, and sends the record
with file name `s` and byte count `n`; the Coordinator, on receiving that
record, prints `"\rFinished "` followed by `s - n bytes` and a newline. -/
theorem download_named_after_final_segment (w : worker) (env : TaskEnv) (s : String) (n : Nat)
    (hs : s ≠ "") (hno : ∀ c ∈ s.data, c ≠ '/')
    (hp : w.URL.Path = s ∨ ∃ d : String, w.URL.Path = d ++ "/" ++ s)
    (hget : env.getErr = none) (hfs : env.fs = ⟨none, n, none, none⟩) :
    created (start w env) = [env.join w.outDir s] ∧
      Event.copy (env.join w.outDir s) n ∈ start w env ∧
      allSends (start w env) = [{ err := none, bytesRead := (n : Int), fileName := s }] ∧
      report { bytesRead := (n : Int), fileName := s } =
        "\rFinished " ++ (s ++ " - " ++ toString n ++ " bytes") ++ "\n" ∧
      ∀ (c : Coord) (ps : List (Option stat)), c.done = false → c.left ≠ 0 →
        c.polls = some { bytesRead := (n : Int), fileName := s } :: ps →
        (drainStep c).trace = c.trace ++
          [.recv workersStats { bytesRead := (n : Int), fileName := s },
           .print ("\rFinished " ++ (s ++ " - " ++ toString n ++ " bytes") ++ "\n")] := by
  have hb : pathBase w.URL.Path = s := pathBase_final_segment _ _ hs hno hp
  rcases env with ⟨g, bc, fs, j⟩
  simp only at hget hfs
  subst hget hfs
  refine ⟨?_, ?_, ?_, report_success s n, ?_⟩
  · cases bc <;> simp [start, readToFile, closeBody, created, hb]
  · cases bc <;> simp [start, readToFile, closeBody, hb]
  · cases bc <;> simp [start, readToFile, closeBody, allSends, hb]
  · intro c ps hd hl hpolls
    rw [← report_success s n]
    simp [drainStep, hd, hl, hpolls]

/-- C9, concrete case: the body `hello` (5 bytes) served at `/a/b/file.txt`
and downloaded into `out`. -/
theorem download_named_after_final_segment_witness :
    created (start ⟨⟨"http://h/a/b/file.txt", "/a/b/file.txt"⟩, "out", 0⟩
        ⟨none, none, ⟨none, 5, none, none⟩, joinSample⟩) = ["out/file.txt"] ∧
      allSends (start ⟨⟨"http://h/a/b/file.txt", "/a/b/file.txt"⟩, "out", 0⟩
        ⟨none, none, ⟨none, 5, none, none⟩, joinSample⟩) = [helloStat] ∧
      report helloStat = "\rFinished file.txt - 5 bytes\n" :=
  have h := download_named_after_final_segment
    ⟨⟨"http://h/a/b/file.txt", "/a/b/file.txt"⟩, "out", 0⟩
    ⟨none, none, ⟨none, 5, none, none⟩, joinSample⟩ "file.txt" 5
    (by decide) (by decide) (Or.inr ⟨"/a/b", by decide⟩) rfl rfl
  ⟨h.1.trans (by decide), h.2.2.1, h.2.2.2.1.trans (by decide)⟩

/-! ## The drain loop -/

theorem recvs_append (a b : List Event) : recvs (a ++ b) = recvs a ++ recvs b := by
  simp [recvs, List.filterMap_append]

theorem recvs_displayProgress : recvs displayProgress = [] := by decide

theorem records_cons_some (s : stat) (ps : List (Option stat)) :
    records (some s :: ps) = s :: records ps := by
  simp [records]

theorem records_cons_none (ps : List (Option stat)) : records (none :: ps) = records ps := by
  simp [records]

/-- Once `main` has returned, further iterations change nothing. -/
theorem drainStep_done (c : Coord) (h : c.done = true) : drainStep c = c := by
  simp [drainStep, h]

theorem drainRun_done (k : Nat) (c : Coord) (h : c.done = true) : drainRun k c = c := by
  induction k with
  | zero => rfl
  | succ k ih => simp [drainRun, drainStep_done c h, ih]

theorem drainRun_add (j k : Nat) (c : Coord) : drainRun (j + k) c = drainRun k (drainRun j c) := by
  induction j generalizing c with
  | zero => simp [drainRun]
  | succ j ih => rw [Nat.succ_add]; simp [drainRun, ih]

theorem drainRun_succ (k : Nat) (c : Coord) : drainRun (k + 1) c = drainStep (drainRun k c) := by
  rw [drainRun_add]; rfl

/-- An iteration on a record that is ready: the record is received, the
counter goes down by one, the poll is consumed. -/
theorem drainStep_record (c : Coord) (s : stat) (ps : List (Option stat))
    (hd : c.done = false) (hl : c.left ≠ 0) (hp : c.polls = some s :: ps) :
    (drainStep c).left = c.left - 1 ∧ recvs (drainStep c).trace = recvs c.trace ++ [s] ∧
      (drainStep c).polls = ps ∧ (drainStep c).done = false := by
  simp [drainStep, hd, hl, hp, recvs_append, recvs]

/-- An iteration on an empty poll: nothing is received, the counter stays. -/
theorem drainStep_empty (c : Coord) (ps : List (Option stat))
    (hd : c.done = false) (hl : c.left ≠ 0) (hp : c.polls = none :: ps) :
    (drainStep c).left = c.left ∧ recvs (drainStep c).trace = recvs c.trace ∧
      (drainStep c).polls = ps ∧ (drainStep c).done = false := by
  simp [drainStep, hd, hl, hp, recvs_append, recvs_displayProgress]

/-- An iteration when the schedule is used up and the counter is not zero:
the state is unchanged. -/
theorem drainStep_starved (c : Coord) (hd : c.done = false) (hl : c.left ≠ 0)
    (hp : c.polls = []) : drainStep c = c := by
  simp [drainStep, hd, hl, hp]

/-- An iteration with the counter at zero: no receive, no poll consumed, and
`main` has returned afterwards. -/
theorem drainStep_zero (c : Coord) (hl : c.left = 0) :
    (drainStep c).left = 0 ∧ recvs (drainStep c).trace = recvs c.trace ∧
      (drainStep c).polls = c.polls ∧ (drainStep c).done = true := by
  by_cases hd : c.done = true
  · simp [drainStep, hd, hl]
  · simp [drainStep, hd, hl, recvs_append, recvs]

theorem drainRun_zero (j : Nat) (c : Coord) (hl : c.left = 0) :
    (drainRun j c).left = 0 ∧ recvs (drainRun j c).trace = recvs c.trace ∧
      (drainRun j c).polls = c.polls := by
  induction j generalizing c with
  | zero => exact ⟨hl, rfl, rfl⟩
  | succ j ih =>
    have hz := drainStep_zero c hl
    have h := ih (drainStep c) hz.1
    exact ⟨h.1, h.2.1.trans hz.2.1, h.2.2.trans hz.2.2.1⟩

/-- The loop invariant: the counter is a natural number `m`, `main` has
returned only if it is zero, and the records received so far followed by the
next `m` records of the schedule are a fixed list `R`. -/
theorem drainStep_invariant (R : List stat) (c : Coord)
    (h : ∃ m : Nat, c.left = m ∧ (c.done = true → m = 0) ∧
      recvs c.trace ++ (records c.polls).take m = R) :
    ∃ m : Nat, (drainStep c).left = m ∧ ((drainStep c).done = true → m = 0) ∧
      recvs (drainStep c).trace ++ (records (drainStep c).polls).take m = R := by
  obtain ⟨m, hm, hdone, hR⟩ := h
  by_cases hd : c.done = true
  · rw [drainStep_done c hd]; exact ⟨m, hm, hdone, hR⟩
  · have hd0 : c.done = false := by simpa using hd
    by_cases hl : c.left = 0
    · have hz := drainStep_zero c hl
      have hm0 : m = 0 := by omega
      subst hm0
      exact ⟨0, by simpa using hz.1, fun _ => rfl, by rw [hz.2.1, hz.2.2.1]; exact hR⟩
    · have hmpos : 0 < m := by omega
      rcases hp : c.polls with _ | ⟨p, ps⟩
      · rw [drainStep_starved c hd0 hl hp]; exact ⟨m, hm, hdone, hR⟩
      · cases p with
        | none =>
          have hs := drainStep_empty c ps hd0 hl hp
          refine ⟨m, hs.1.trans hm, ?_, ?_⟩
          · rw [hs.2.2.2]; intro hf; cases hf
          · rw [hs.2.1, hs.2.2.1]; simpa [hp, records_cons_none] using hR
        | some s =>
          have hs := drainStep_record c s ps hd0 hl hp
          obtain ⟨m', rfl⟩ : ∃ m', m = m' + 1 := ⟨m - 1, by omega⟩
          refine ⟨m', ?_, ?_, ?_⟩
          · rw [hs.1, hm]; push_cast; omega
          · rw [hs.2.2.2]; intro hf; cases hf
          · rw [hs.2.1, hs.2.2.1]
            simpa [hp, records_cons_some, List.take_succ_cons] using hR

theorem drainRun_invariant (R : List stat) (k : Nat) (c : Coord)
    (h : ∃ m : Nat, c.left = m ∧ (c.done = true → m = 0) ∧
      recvs c.trace ++ (records c.polls).take m = R) :
    ∃ m : Nat, (drainRun k c).left = m ∧ ((drainRun k c).done = true → m = 0) ∧
      recvs (drainRun k c).trace ++ (records (drainRun k c).polls).take m = R := by
  induction k generalizing c with
  | zero => exact h
  | succ k ih => exact ih (drainStep c) (drainStep_invariant R c h)

/-- Each iteration keeps the sum of the counter and the number of records
received. -/
theorem drainStep_sum (c : Coord) :
    (drainStep c).left + ((recvs (drainStep c).trace).length : Int) =
      c.left + ((recvs c.trace).length : Int) := by
  by_cases hd : c.done = true
  · rw [drainStep_done c hd]
  · have hd0 : c.done = false := by simpa using hd
    by_cases hl : c.left = 0
    · have hz := drainStep_zero c hl
      rw [hz.1, hz.2.1, hl]
    · rcases hp : c.polls with _ | ⟨p, ps⟩
      · simp [drainStep, hd0, hl, hp]
      · cases p with
        | none =>
          have hs := drainStep_empty c ps hd0 hl hp
          rw [hs.1, hs.2.1]
        | some s =>
          have hs := drainStep_record c s ps hd0 hl hp
          rw [hs.1, hs.2.1]
          simp only [List.length_append, List.length_singleton]
          push_cast
          omega

theorem drainRun_sum (k : Nat) (c : Coord) :
    (drainRun k c).left + ((recvs (drainRun k c).trace).length : Int) =
      c.left + ((recvs c.trace).length : Int) := by
  induction k generalizing c with
  | zero => rfl
  | succ k ih => exact (ih (drainStep c)).trans (drainStep_sum c)

/-- Liveness: when the schedule holds at least as many records as the counter
asks for, `polls.length + 1` iterations reach the return of `main`. -/
theorem drainRun_reaches_done (polls : List (Option stat)) :
    ∀ (m : Nat) (t : List Event), m ≤ (records polls).length →
      (drainRun (polls.length + 1) ⟨(m : Int), polls, t, false⟩).done = true := by
  induction polls with
  | nil =>
    intro m t hm
    have hm0 : m = 0 := by simpa [records] using hm
    subst hm0
    simp [drainRun, drainStep]
  | cons p ps ih =>
    intro m t hm
    cases m with
    | zero =>
      have hz := drainStep_zero ⟨((0 : Nat) : Int), p :: ps, t, false⟩ (by simp)
      rw [drainRun, drainRun_done _ _ hz.2.2.2]
      exact hz.2.2.2
    | succ m =>
      have hne : ((m + 1 : Nat) : Int) ≠ 0 := by omega
      cases p with
      | none =>
        rw [records_cons_none] at hm
        have hstep : drainStep ⟨((m + 1 : Nat) : Int), none :: ps, t, false⟩ =
            ⟨((m + 1 : Nat) : Int), ps, t ++ displayProgress, false⟩ := by
          simp only [drainStep, hne, if_false, Bool.false_eq_true]
        rw [List.length_cons, drainRun, hstep]
        exact ih (m + 1) (t ++ displayProgress) hm
      | some s =>
        rw [records_cons_some] at hm
        have hstep : drainStep ⟨((m + 1 : Nat) : Int), some s :: ps, t, false⟩ =
            ⟨(m : Int), ps, t ++ [.recv workersStats s, .print (report s)], false⟩ := by
          simp only [drainStep, hne, if_false, Bool.false_eq_true]
          congr 1
          push_cast
          omega
        rw [List.length_cons, drainRun, hstep]
        exact ih m _ (by simpa using hm)

/-- Whenever the loop started at `n` has returned, the counter is zero and
exactly the first `n` records of the schedule have been received. -/
theorem drainRun_done_received (n k : Nat) (polls : List (Option stat)) (t0 : List Event)
    (hk : (drainRun k ⟨(n : Int), polls, t0, false⟩).done = true) :
    (drainRun k ⟨(n : Int), polls, t0, false⟩).left = 0 ∧
      recvs (drainRun k ⟨(n : Int), polls, t0, false⟩).trace =
        recvs t0 ++ (records polls).take n := by
  obtain ⟨m, hm, hz, hR⟩ :=
    drainRun_invariant (recvs t0 ++ (records polls).take n) k ⟨(n : Int), polls, t0, false⟩
      ⟨n, rfl, (fun h => Bool.noConfusion h), rfl⟩
  have hm0 := hz hk
  subst hm0
  exact ⟨by simpa using hm, by simpa using hR⟩

/-- C3: the drain loop started with the counter at `n` on a schedule of polls
that delivers (at least) `n` records.  An iteration that finds a record
receives it and lowers the counter by one; an iteration that finds none
receives nothing and keeps the counter; so counter plus records received is
constant.  The loop reaches the return of `main`; whenever it has returned the
counter is zero and exactly the first `n` records of the schedule have been
received; when the counter is zero the next iteration returns; and from the
moment the counter is zero no poll is consumed and nothing is received any
more (for `n = 0`: nothing at all). -/
theorem drain_loop_exact_count (n : Nat) (polls : List (Option stat)) (t0 : List Event)
    (hdel : n ≤ (records polls).length) :
    (∀ (c : Coord) (s : stat) (ps : List (Option stat)),
        c.done = false → c.left ≠ 0 → c.polls = some s :: ps →
        (drainStep c).left = c.left - 1 ∧ recvs (drainStep c).trace = recvs c.trace ++ [s]) ∧
    (∀ (c : Coord) (ps : List (Option stat)),
        c.done = false → c.left ≠ 0 → c.polls = none :: ps →
        (drainStep c).left = c.left ∧ recvs (drainStep c).trace = recvs c.trace) ∧
    (∀ k, (drainRun k ⟨(n : Int), polls, t0, false⟩).left +
        ((recvs (drainRun k ⟨(n : Int), polls, t0, false⟩).trace).length : Int) =
        (n : Int) + ((recvs t0).length : Int)) ∧
    ((drainAll ⟨(n : Int), polls, t0, false⟩).done = true ∧
      (drainAll ⟨(n : Int), polls, t0, false⟩).left = 0 ∧
      recvs (drainAll ⟨(n : Int), polls, t0, false⟩).trace = recvs t0 ++ (records polls).take n) ∧
    (∀ k, (drainRun k ⟨(n : Int), polls, t0, false⟩).done = true →
        (drainRun k ⟨(n : Int), polls, t0, false⟩).left = 0 ∧
        recvs (drainRun k ⟨(n : Int), polls, t0, false⟩).trace =
          recvs t0 ++ (records polls).take n) ∧
    (∀ k, (drainRun k ⟨(n : Int), polls, t0, false⟩).left = 0 →
        (drainRun (k + 1) ⟨(n : Int), polls, t0, false⟩).done = true) ∧
    (∀ k j, (drainRun k ⟨(n : Int), polls, t0, false⟩).left = 0 →
        recvs (drainRun (k + j) ⟨(n : Int), polls, t0, false⟩).trace =
          recvs (drainRun k ⟨(n : Int), polls, t0, false⟩).trace ∧
        (drainRun (k + j) ⟨(n : Int), polls, t0, false⟩).polls =
          (drainRun k ⟨(n : Int), polls, t0, false⟩).polls) ∧
    (n = 0 → ∀ j, recvs (drainRun j ⟨(n : Int), polls, t0, false⟩).trace = recvs t0 ∧
        (drainRun j ⟨(n : Int), polls, t0, false⟩).polls = polls) := by
  have hdone : ∀ k, (drainRun k ⟨(n : Int), polls, t0, false⟩).done = true →
      (drainRun k ⟨(n : Int), polls, t0, false⟩).left = 0 ∧
      recvs (drainRun k ⟨(n : Int), polls, t0, false⟩).trace =
        recvs t0 ++ (records polls).take n :=
    fun k hk => drainRun_done_received n k polls t0 hk
  have hlive : (drainAll ⟨(n : Int), polls, t0, false⟩).done = true :=
    drainRun_reaches_done polls n t0 hdel
  refine ⟨?_, ?_, ?_, ?_, hdone, ?_, ?_, ?_⟩
  · intro c s ps hd hl hp
    exact ⟨(drainStep_record c s ps hd hl hp).1, (drainStep_record c s ps hd hl hp).2.1⟩
  · intro c ps hd hl hp
    exact ⟨(drainStep_empty c ps hd hl hp).1, (drainStep_empty c ps hd hl hp).2.1⟩
  · intro k
    exact drainRun_sum k _
  · exact ⟨hlive, (hdone _ hlive).1, (hdone _ hlive).2⟩
  · intro k hk
    rw [drainRun_succ]
    exact (drainStep_zero _ hk).2.2.2
  · intro k j hk
    rw [drainRun_add]
    exact ⟨(drainRun_zero j _ hk).2.1, (drainRun_zero j _ hk).2.2⟩
  · intro hn j
    subst hn
    exact ⟨(drainRun_zero j ⟨((0 : Nat) : Int), polls, t0, false⟩ (by simp)).2.1,
      (drainRun_zero j ⟨((0 : Nat) : Int), polls, t0, false⟩ (by simp)).2.2⟩

/-- C3, concrete case: two records, delivered on the second and the fourth
poll; a fifth poll result is never looked at. -/
theorem drain_loop_exact_count_witness :
    2 ≤ (records [none, some helloStat, none, some { err := some "timeout" }, none]).length ∧
    (drainAll ⟨2, [none, some helloStat, none, some { err := some "timeout" }, none],
        [], false⟩).done = true ∧
    recvs (drainAll ⟨2, [none, some helloStat, none, some { err := some "timeout" }, none],
        [], false⟩).trace = [helloStat, { err := some "timeout" }] :=
  have h := drain_loop_exact_count 2
    [none, some helloStat, none, some { err := some "timeout" }, none] [] (by decide)
  ⟨by decide, h.2.2.2.1.1, h.2.2.2.1.2.2⟩

/-! ## `main` up to the drain loop -/

theorem fieldsFrom_all_space (cs : List Char) (h : ∀ c ∈ cs, isSpace c = true) :
    fieldsFrom cs [] = [] := by
  induction cs with
  | nil => rfl
  | cons c cs ih =>
    have hc : isSpace c = true := h c (List.mem_cons_self _ _)
    have hcs : ∀ d ∈ cs, isSpace d = true := fun d hd => h d (List.mem_cons_of_mem _ hd)
    simp [fieldsFrom, hc, ih hcs]

/-- A string of white space only has no fields. -/
theorem fields_all_space (s : String) (h : ∀ c ∈ s.data, isSpace c = true) : fields s = [] :=
  fieldsFrom_all_space s.data h

theorem exitStatus_append (a b : List Event) :
    exitStatus (a ++ b) = (exitStatus a).or (exitStatus b) := by
  simp [exitStatus, List.findSome?_append]

theorem exitStatus_displayProgress : exitStatus displayProgress = none := by decide

/-- The launch loop receives nothing, creates no file and does not exit. -/
theorem launchLoop_quiet (parse : String → Except String URL) (outDir : String)
    (links : List String) :
    recvs (launchLoop parse outDir links) = [] ∧ created (launchLoop parse outDir links) = [] ∧
      exitStatus (launchLoop parse outDir links) = none := by
  induction links with
  | nil => exact ⟨rfl, rfl, rfl⟩
  | cons l ls ih =>
    obtain ⟨h1, h2, h3⟩ := ih
    simp only [recvs, created, exitStatus] at h1 h2 h3
    cases hp : parse l <;>
      simp [launchLoop, hp, recvs, created, exitStatus, h1, h2, h3]

/-- The launch loop starts one worker per token that parses. -/
theorem launchLoop_all_parsed (parse : String → Except String URL) (outDir : String)
    (links : List String) (h : ∀ l ∈ links, ∃ u, parse l = .ok u) :
    (launched (launchLoop parse outDir links)).length = links.length := by
  induction links with
  | nil => rfl
  | cons l ls ih =>
    obtain ⟨u, hu⟩ := h l (List.mem_cons_self _ _)
    have ih2 := ih (fun x hx => h x (List.mem_cons_of_mem _ hx))
    simp only [launched] at ih2
    simp [launchLoop, hu, launched, ih2]

/-- An iteration with fewer records left in the schedule than the counter
asks for: `main` does not return, and the shortage remains. -/
theorem drainStep_short (c : Coord) (hd : c.done = false)
    (hlt : ((records c.polls).length : Int) < c.left) :
    (drainStep c).done = false ∧
      ((records (drainStep c).polls).length : Int) < (drainStep c).left ∧
      exitStatus (drainStep c).trace = exitStatus c.trace := by
  have hl : c.left ≠ 0 := by omega
  rcases hp : c.polls with _ | ⟨p, ps⟩
  · rw [drainStep_starved c hd hl hp]; exact ⟨hd, hlt, rfl⟩
  · cases p with
    | none =>
      have hs := drainStep_empty c ps hd hl hp
      refine ⟨hs.2.2.2, ?_, ?_⟩
      · rw [hs.1, hs.2.2.1]; simpa [hp, records_cons_none] using hlt
      · simp [drainStep, hd, hl, hp, exitStatus_append, exitStatus_displayProgress]
    | some s =>
      have hs := drainStep_record c s ps hd hl hp
      refine ⟨hs.2.2.2, ?_, ?_⟩
      · rw [hs.1, hs.2.2.1]
        rw [hp, records_cons_some] at hlt
        simp only [List.length_cons] at hlt
        push_cast at hlt
        omega
      · have ht : (drainStep c).trace =
            c.trace ++ [.recv workersStats s, .print (report s)] := by
          simp [drainStep, hd, hl, hp]
        have hq : exitStatus [Event.recv workersStats s, Event.print (report s)] = none := rfl
        rw [ht, exitStatus_append, hq, Option.or_none]

/-- With fewer records in the schedule than the counter asks for, no number
of iterations reaches the return of `main`. -/
theorem drainRun_short (k : Nat) (c : Coord) (hd : c.done = false)
    (hlt : ((records c.polls).length : Int) < c.left) :
    (drainRun k c).done = false ∧ exitStatus (drainRun k c).trace = exitStatus c.trace := by
  induction k generalizing c with
  | zero => exact ⟨hd, rfl⟩
  | succ k ih =>
    have hs := drainStep_short c hd hlt
    have h := ih (drainStep c) hs.1 hs.2.1
    exact ⟨h.1, h.2.trans hs.2.2⟩

/-! ## `main`: the pending count, the early exits, the exit status -/

/-- C1 (the code departs from it): on the links argument `:foo`, a token that
`url.Parse` rejects, with an existing output directory, `main` enters the
drain loop with the counter at 1 although it has launched no worker; as no
record can then arrive, no number of iterations makes `main` return. -/
theorem pending_count_includes_unparsed (env : MainEnv) (outDir msg : String)
    (hstat : env.statErr outDir = none) (hbad : env.parse ":foo" = .error msg) :
    mainSetup ":foo" outDir env = .ok ⟨1, env.polls, [.print (msg ++ "\n")], false⟩ ∧
      launched [Event.print (msg ++ "\n")] = [] ∧
      (records env.polls = [] → ∀ k,
        (drainRun k ⟨1, env.polls, [.print (msg ++ "\n")], false⟩).done = false ∧
        exitStatus (drainRun k ⟨1, env.polls, [.print (msg ++ "\n")], false⟩).trace = none) := by
  have hf : fields ":foo" = [":foo"] := by decide
  have hne : ¬ ((":foo" : String) = "") := by decide
  refine ⟨?_, rfl, ?_⟩
  · simp [mainSetup, hne, hstat, hf, launchLoop, hbad]
  · intro hrec k
    have h := drainRun_short k ⟨1, env.polls, [.print (msg ++ "\n")], false⟩ rfl
      (by simp [hrec])
    exact ⟨h.1, h.2.trans rfl⟩

/-- C1, concrete case: the sample answers, three empty polls. -/
theorem pending_count_includes_unparsed_witness :
    mainSetup ":foo" "." ⟨statSample, parseSample, [none, none, none]⟩ =
        .ok ⟨1, [none, none, none],
          [.print ("parse \":foo\": missing protocol scheme" ++ "\n")], false⟩ ∧
      ∀ k, (drainRun k ⟨1, [none, none, none],
          [.print ("parse \":foo\": missing protocol scheme" ++ "\n")], false⟩).done = false :=
  have h := pending_count_includes_unparsed ⟨statSample, parseSample, [none, none, none]⟩ "."
    "parse \":foo\": missing protocol scheme" (by decide) rfl
  ⟨h.1, fun k => (h.2.2 rfl k).1⟩

/-- C5 (as stated it fails): the links argument made of a space and a newline
holds no URL, yet with an existing directory `main` prints "All done" and not
"Nothing to download", and with a missing directory it exits with status 1. -/
theorem zero_urls_counterexample :
    fields " \n" = [] ∧
      main " \n" "." ⟨statSample, parseSample, []⟩ = [.print "All done\n", .exit 0] ∧
      "Nothing to download\n" ∉ printed (main " \n" "." ⟨statSample, parseSample, []⟩) ∧
      exitStatus (main " \n" "missing" ⟨statSample, parseSample, []⟩) = some 1 := by
  decide

/-- C5 (amended): on the empty links argument `main` prints "Nothing to
download" and exits with status 0 at once.  On a non-empty links argument of
white space only, `main` launches no worker, creates no file and receives
nothing; the directory check comes first, so if `os.Stat` fails it prints the
error and exits with status 1, and otherwise it prints "All done" and returns
(status 0). -/
theorem zero_urls_behaviour (outDir : String) (env : MainEnv) :
    main "" outDir env = [.print "Nothing to download\n", .exit 0] ∧
    ∀ linksArg : String, linksArg ≠ "" → (∀ c ∈ linksArg.data, isSpace c = true) →
      launched (main linksArg outDir env) = [] ∧
      created (main linksArg outDir env) = [] ∧
      recvs (main linksArg outDir env) = [] ∧
      (env.statErr outDir = none →
        main linksArg outDir env = [.print "All done\n", .exit 0]) ∧
      (∀ e, env.statErr outDir = some e →
        main linksArg outDir env = [.print (e ++ "\n"), .exit 1]) := by
  refine ⟨by simp [main, mainSetup], ?_⟩
  intro linksArg hne hsp
  have hf : fields linksArg = [] := fields_all_space linksArg hsp
  cases hst : env.statErr outDir with
  | none =>
    have hset : mainSetup linksArg outDir env = .ok ⟨0, env.polls, [], false⟩ := by
      simp [mainSetup, hne, hst, hf, launchLoop]
    have hstep : drainStep ⟨0, env.polls, [], false⟩ =
        ⟨0, env.polls, [.print "All done\n", .exit 0], true⟩ := by
      simp [drainStep]
    have hm : main linksArg outDir env = [.print "All done\n", .exit 0] := by
      simp only [main, hset, drainAll, drainRun, hstep]
      rw [drainRun_done _ _ rfl]
    rw [hm]
    exact ⟨rfl, rfl, rfl, fun _ => rfl, fun e he => Option.noConfusion he⟩
  | some e =>
    have hm : main linksArg outDir env = [.print (e ++ "\n"), .exit 1] := by
      simp [main, mainSetup, hne, hst]
    rw [hm]
    refine ⟨rfl, rfl, rfl, (fun he => Option.noConfusion he), fun e2 he => ?_⟩
    cases he
    rfl

/-- C5 (amended), concrete case: a space and a newline, existing directory. -/
theorem zero_urls_behaviour_witness :
    main " \n" "." ⟨statSample, parseSample, [none]⟩ = [.print "All done\n", .exit 0] :=
  ((zero_urls_behaviour "." ⟨statSample, parseSample, [none]⟩).2 " \n"
    (by decide) (by decide)).2.2.2.1 (by decide)

/-- C6 (as stated it fails): with the empty links argument and a directory
on which `os.Stat` fails, `main` exits with status 0. -/
theorem missing_dir_counterexample :
    statSample "missing" = some "stat missing: no such file or directory" ∧
      exitStatus (main "" "missing" ⟨statSample, parseSample, []⟩) = some 0 := by
  decide

/-- C6 (amended): for every non-empty links argument, when `os.Stat` on the
output directory fails `main` prints the error and exits with status 1, having
launched no worker and created no file.  (On the empty links argument `main`
has exited with status 0 before the directory is looked at, also without
launching a worker.) -/
theorem missing_dir_exits_one (linksArg outDir : String) (env : MainEnv) (e : String)
    (hne : linksArg ≠ "") (hst : env.statErr outDir = some e) :
    main linksArg outDir env = [.print (e ++ "\n"), .exit 1] ∧
      exitStatus (main linksArg outDir env) = some 1 ∧
      launched (main linksArg outDir env) = [] ∧
      created (main linksArg outDir env) = [] ∧
      launched (main "" outDir env) = [] ∧
      exitStatus (main "" outDir env) = some 0 := by
  have hm : main linksArg outDir env = [.print (e ++ "\n"), .exit 1] := by
    simp [main, mainSetup, hne, hst]
  have h0 : main "" outDir env = [.print "Nothing to download\n", .exit 0] := by
    simp [main, mainSetup]
  rw [hm, h0]
  exact ⟨rfl, rfl, rfl, rfl, rfl, rfl⟩

/-- C6 (amended), concrete case: one URL, a directory that does not exist. -/
theorem missing_dir_exits_one_witness :
    main "http://h/x" "missing" ⟨statSample, parseSample, [some helloStat]⟩ =
      [.print "stat missing: no such file or directory\n", .exit 1] :=
  (missing_dir_exits_one "http://h/x" "missing" ⟨statSample, parseSample, [some helloStat]⟩
    "stat missing: no such file or directory" (by decide) (by decide)).1

/-- C10 (the code departs from it): on the links argument
`http://h/x :foo`, whose second token `url.Parse` rejects, with an existing
output directory, `main` launches one worker and enters the drain loop with
the counter at 2; on every schedule with at most one record (one worker, one
record) no number of iterations makes `main` return, and the process has no
exit status. -/
theorem unparsed_token_blocks_exit (env : MainEnv) (outDir msg : String) (u : URL)
    (hstat : env.statErr outDir = none) (hok : env.parse "http://h/x" = .ok u)
    (hbad : env.parse ":foo" = .error msg) (hsched : (records env.polls).length ≤ 1) :
    mainSetup "http://h/x :foo" outDir env =
        .ok ⟨2, env.polls, [.launch ⟨u, outDir, workersStats⟩, .print (msg ++ "\n")], false⟩ ∧
      (∀ k, (drainRun k
        ⟨2, env.polls, [.launch ⟨u, outDir, workersStats⟩, .print (msg ++ "\n")], false⟩).done
          = false) ∧
      exitStatus (main "http://h/x :foo" outDir env) = none := by
  have hf : fields "http://h/x :foo" = ["http://h/x", ":foo"] := by decide
  have hne : ¬ (("http://h/x :foo" : String) = "") := by decide
  have hset : mainSetup "http://h/x :foo" outDir env =
      .ok ⟨2, env.polls, [.launch ⟨u, outDir, workersStats⟩, .print (msg ++ "\n")], false⟩ := by
    simp [mainSetup, hne, hstat, hf, launchLoop, hbad, hok]
  have hshort : ∀ k, (drainRun k
      ⟨2, env.polls, [.launch ⟨u, outDir, workersStats⟩, .print (msg ++ "\n")], false⟩).done
        = false ∧
      exitStatus (drainRun k
        ⟨2, env.polls, [.launch ⟨u, outDir, workersStats⟩, .print (msg ++ "\n")], false⟩).trace
        = none := by
    intro k
    have h := drainRun_short k
      ⟨2, env.polls, [.launch ⟨u, outDir, workersStats⟩, .print (msg ++ "\n")], false⟩ rfl
      (by simp only; omega)
    exact ⟨h.1, h.2.trans rfl⟩
  refine ⟨hset, fun k => (hshort k).1, ?_⟩
  simp only [main, hset, drainAll]
  exact (hshort _).2

/-- C10, concrete case: the sample answers; the one record arrives on the
second poll and three more polls find nothing. -/
theorem unparsed_token_blocks_exit_witness :
    exitStatus (main "http://h/x :foo" "."
      ⟨statSample, parseSample, [none, some { bytesRead := 3, fileName := "x" }, none, none, none]⟩)
      = none :=
  (unparsed_token_blocks_exit
    ⟨statSample, parseSample, [none, some { bytesRead := 3, fileName := "x" }, none, none, none]⟩
    "." "parse \":foo\": missing protocol scheme" ⟨"http://h/x", "/x"⟩
    (by decide) rfl rfl (by decide)).2.2

/-- The trace carries an exit status exactly when `main` has returned, and it
is then 0. -/
theorem drainStep_exit (c : Coord)
    (h : (c.done = false → exitStatus c.trace = none) ∧
      (c.done = true → exitStatus c.trace = some 0)) :
    ((drainStep c).done = false → exitStatus (drainStep c).trace = none) ∧
      ((drainStep c).done = true → exitStatus (drainStep c).trace = some 0) := by
  by_cases hd : c.done = true
  · rw [drainStep_done c hd]; exact h
  · have hd0 : c.done = false := by simpa using hd
    have hn := h.1 hd0
    by_cases hl : c.left = 0
    · have ht : (drainStep c).trace = c.trace ++ [.print "All done\n", .exit 0] := by
        simp [drainStep, hd0, hl]
      have hq : exitStatus [Event.print "All done\n", Event.exit 0] = some 0 := rfl
      refine ⟨fun hf => ?_, fun _ => ?_⟩
      · rw [(drainStep_zero c hl).2.2.2] at hf; cases hf
      · rw [ht, exitStatus_append, hn, hq]; rfl
    · have hlt : (drainStep c).done = false ∧ exitStatus (drainStep c).trace = none := by
        rcases hp : c.polls with _ | ⟨p, ps⟩
        · rw [drainStep_starved c hd0 hl hp]; exact ⟨hd0, hn⟩
        · cases p with
          | none =>
            refine ⟨(drainStep_empty c ps hd0 hl hp).2.2.2, ?_⟩
            have ht : (drainStep c).trace = c.trace ++ displayProgress := by
              simp [drainStep, hd0, hl, hp]
            rw [ht, exitStatus_append, hn, exitStatus_displayProgress]; rfl
          | some s =>
            refine ⟨(drainStep_record c s ps hd0 hl hp).2.2.2, ?_⟩
            have ht : (drainStep c).trace =
                c.trace ++ [.recv workersStats s, .print (report s)] := by
              simp [drainStep, hd0, hl, hp]
            have hq : exitStatus [Event.recv workersStats s, Event.print (report s)] = none :=
              rfl
            rw [ht, exitStatus_append, hn, hq]; rfl
      exact ⟨fun _ => hlt.2, fun hf => by rw [hlt.1] at hf; cases hf⟩

theorem drainRun_exit (k : Nat) (c : Coord)
    (h : (c.done = false → exitStatus c.trace = none) ∧
      (c.done = true → exitStatus c.trace = some 0)) :
    ((drainRun k c).done = false → exitStatus (drainRun k c).trace = none) ∧
      ((drainRun k c).done = true → exitStatus (drainRun k c).trace = some 0) := by
  induction k generalizing c with
  | zero => exact h
  | succ k ih => exact ih (drainStep c) (drainStep_exit c h)

/-- When every token of a non-empty links argument parses, the directory
exists and the schedule delivers at least one record per token, `main`
launches one worker per token, receives exactly that many records and returns
with status 0, whatever the records carry (errors or not). -/
theorem all_parsed_exit_zero (linksArg outDir : String) (env : MainEnv)
    (hne : linksArg ≠ "") (hst : env.statErr outDir = none)
    (hparse : ∀ l ∈ fields linksArg, ∃ u, env.parse l = .ok u)
    (hsched : (fields linksArg).length ≤ (records env.polls).length) :
    (∃ c, mainSetup linksArg outDir env = .ok c ∧
        c.left = ((launched c.trace).length : Int)) ∧
      exitStatus (main linksArg outDir env) = some 0 ∧
      recvs (main linksArg outDir env) = (records env.polls).take (fields linksArg).length := by
  have hset : mainSetup linksArg outDir env =
      .ok ⟨((fields linksArg).length : Int), env.polls,
        launchLoop env.parse outDir (fields linksArg), false⟩ := by
    simp [mainSetup, hne, hst]
  have hq := launchLoop_quiet env.parse outDir (fields linksArg)
  have hlive := drainRun_reaches_done env.polls (fields linksArg).length
    (launchLoop env.parse outDir (fields linksArg)) hsched
  have hrec := drainRun_done_received (fields linksArg).length (env.polls.length + 1)
    env.polls (launchLoop env.parse outDir (fields linksArg)) hlive
  have hex := drainRun_exit (env.polls.length + 1)
    ⟨((fields linksArg).length : Int), env.polls,
      launchLoop env.parse outDir (fields linksArg), false⟩
    ⟨fun _ => hq.2.2, fun hf => Bool.noConfusion hf⟩
  refine ⟨⟨_, hset, ?_⟩, ?_, ?_⟩
  · simp only
    rw [launchLoop_all_parsed env.parse outDir (fields linksArg) hparse]
  · simp only [main, hset]
    exact hex.2 hlive
  · simp only [main, hset]
    exact hrec.2.trans (by rw [hq.1, List.nil_append])

end Gonload
